import Mathlib

/-!
Verification of the schema-registry and row-projection core of go-parse.

The Go sources embedded here:
* `pkg/schema/schema.go` — regex-based SQL schema loader (`parseSQLSchema`,
  `parseColumns`, `GetTableDef`) over a process-wide map `SchemaDefinitions`.
* the alternative registry implementation (package `schema`,
  `SchemaRegistry` / `LoadFromFile` / `GetTableInfo` / `PrintWarnings`).
* `cmd/main.go` — `createDMLEvent`, projecting a positional row onto named
  fields using the registry.

Go maps `map[string]V` are modelled as association lists with
Go-assignment semantics; Go regexp matching (leftmost-first, greedy) is
modelled by direct functional matchers for the two concrete patterns used
by the loader, with the backtracking behaviour worked out case by case.
-/

/-- Association-list model of a Go `map[string]V`; the list order is the
insertion order (Go map iteration order is unspecified, so no claim is read
off from the order itself). -/
abbrev GoMap (α : Type) : Type := List (String × α)

/-- Model of Go map indexing `m[k]` in its comma-ok form: `some v` when the
key is present, `none` otherwise. -/
def mapGet {α : Type} : GoMap α → String → Option α
  | [], _ => none
  | (k, v) :: rest, key => if k = key then some v else mapGet rest key

/-- Model of Go map assignment `m[k] = v`: replaces the value of an existing
key, otherwise adds a new binding. -/
def mapInsert {α : Type} : GoMap α → String → α → GoMap α
  | [], key, v => [(key, v)]
  | (k, w) :: rest, key, v =>
      if k = key then (k, v) :: rest else (k, w) :: mapInsert rest key v

theorem mapGet_insert_self {α : Type} (m : GoMap α) (k : String) (v : α) :
    mapGet (mapInsert m k v) k = some v := by
  induction m with
  | nil => simp [mapInsert, mapGet]
  | cons head rest ih =>
      obtain ⟨k0, v0⟩ := head
      by_cases h : k0 = k
      · simp [mapInsert, h, mapGet]
      · simp [mapInsert, h, mapGet, ih]

theorem mapGet_insert_ne {α : Type} (m : GoMap α) (k k2 : String) (v : α)
    (h : k ≠ k2) : mapGet (mapInsert m k v) k2 = mapGet m k2 := by
  induction m with
  | nil => simp [mapInsert, mapGet, h]
  | cons head rest ih =>
      obtain ⟨k0, v0⟩ := head
      by_cases h0 : k0 = k
      · subst h0
        simp [mapInsert, mapGet, h]
      · simp [mapInsert, h0, mapGet, ih]

theorem mapInsert_of_get_none {α : Type} (m : GoMap α) (k : String) (v : α)
    (h : mapGet m k = none) : mapInsert m k v = m ++ [(k, v)] := by
  induction m with
  | nil => simp [mapInsert]
  | cons head rest ih =>
      obtain ⟨k0, v0⟩ := head
      by_cases h0 : k0 = k
      · simp [mapGet, h0] at h
      · simp [mapGet, h0] at h
        simp [mapInsert, h0, ih h]

theorem mapGet_append_of_none {α : Type} (a b : GoMap α) (k : String)
    (h : mapGet a k = none) : mapGet (a ++ b) k = mapGet b k := by
  induction a with
  | nil => simp
  | cons head rest ih =>
      obtain ⟨k0, v0⟩ := head
      by_cases h0 : k0 = k
      · simp [mapGet, h0] at h
      · simp [mapGet, h0] at h
        simpa [mapGet, h0] using ih h

/-! ## String helpers mirroring the Go `strings` functions used by the code -/

/-- The backtick character. -/
def backtickChar : Char := Char.ofNat 96

/-- The single-quote character. -/
def squoteChar : Char := Char.ofNat 39

/-- Model of `strings.ToUpper` (the inputs at issue are ASCII). -/
def upperStr (s : String) : String := ⟨s.data.map Char.toUpper⟩

/-- Model of `strings.HasPrefix`. -/
def strHasPrefix (s pre : String) : Bool := pre.data.isPrefixOf s.data

/-- Model of `strings.HasSuffix`. -/
def strHasSuffix (s suf : String) : Bool := suf.data.isSuffixOf s.data

/-- Model of `strings.TrimPrefix`. -/
def trimPrefixStr (s pre : String) : String :=
  if strHasPrefix s pre then ⟨s.data.drop pre.data.length⟩ else s

/-- Model of `strings.Trim s cutset`: removes leading and trailing characters
belonging to `cutset`. -/
def trimChars (s : String) (cutset : List Char) : String :=
  ⟨((s.data.dropWhile (cutset.contains ·)).reverse.dropWhile
      (cutset.contains ·)).reverse⟩

/-- White space as recognised by `unicode.IsSpace` on the ASCII range
(space, tab, newline, vertical tab, form feed, carriage return). -/
def unicodeSpace (c : Char) : Bool :=
  c = ' ' || c = '\t' || c = '\n' || c = '\r' ||
    c = Char.ofNat 11 || c = Char.ofNat 12

/-- Model of `strings.TrimSpace`. -/
def trimSpaceStr (s : String) : String :=
  ⟨((s.data.dropWhile unicodeSpace).reverse.dropWhile unicodeSpace).reverse⟩

/-- Whether `sub` occurs as a contiguous sublist of the first argument. -/
def listContainsSub : List Char → List Char → Bool
  | [], sub => sub.isEmpty
  | c :: t, sub => sub.isPrefixOf (c :: t) || listContainsSub t sub

/-- Model of `strings.Contains`. -/
def containsStr (s sub : String) : Bool := listContainsSub s.data sub.data

/-- Character class `\s` of Go regexp: `[\t\n\f\r ]` (no vertical tab). -/
def reSpace (c : Char) : Bool :=
  c = ' ' || c = '\t' || c = '\n' || c = Char.ofNat 12 || c = '\r'

/-! ## pkg/schema/schema.go

`ColumnDefRegex` is `\s*([^\s,]+)\s+([^,\s]+(?:\s+[^,\s]+)*)\s*([^,]*),?`.
Go regexp matching is leftmost-first with greedy quantifiers.  For this
pattern no backtracking point survives: once group 1, the mandatory `\s+`
and the first token of group 2 have matched, the rest of the pattern
(`\s*([^,]*),?`) can always match (possibly emptily), so the greedy
choices are final; and when one of the three mandatory pieces fails, every
shorter choice of the preceding greedy run ends on a character that
refutes the next piece, so the whole attempt at that start position fails
and the scan advances one character.  The matcher below implements exactly
that. -/

/-- Character class `[^\s,]` of `ColumnDefRegex`. -/
def tokChar (c : Char) : Bool := !reSpace c && c != ','

/-- Number of characters consumed by the greedy `(?:\s+[^,\s]+)*` of
`ColumnDefRegex`; the fuel (first argument) is bounded by the input length,
and every iteration consumes at least two characters. -/
def starToksAux : Nat → List Char → Nat
  | 0, _ => 0
  | fuel + 1, s =>
    let w := s.takeWhile reSpace
    let t := (s.drop w.length).takeWhile tokChar
    if w.length = 0 || t.length = 0 then 0
    else w.length + t.length + starToksAux fuel (s.drop (w.length + t.length))

/-- Greedy `(?:\s+[^,\s]+)*` consumption. -/
def starToks (s : List Char) : Nat := starToksAux s.length s

/-- One anchored attempt of `ColumnDefRegex` at the head of `s`: returns
`(group1, group2, group3, total characters consumed)` on success. -/
def matchColAt (s : List Char) : Option (List Char × List Char × List Char × Nat) :=
  let w0 := s.takeWhile reSpace
  let s1 := s.drop w0.length
  let g1 := s1.takeWhile tokChar
  if g1.length = 0 then none else
  let s2 := s1.drop g1.length
  let w1 := s2.takeWhile reSpace
  if w1.length = 0 then none else
  let s3 := s2.drop w1.length
  let t1 := s3.takeWhile tokChar
  if t1.length = 0 then none else
  let ext := starToks (s3.drop t1.length)
  let g2 := s3.take (t1.length + ext)
  let s4 := s3.drop (t1.length + ext)
  let w2 := s4.takeWhile reSpace
  let s5 := s4.drop w2.length
  let g3 := s5.takeWhile (fun c => c != ',')
  let s6 := s5.drop g3.length
  let comma := if s6.head? = some ',' then 1 else 0
  some (g1, g2, g3,
    w0.length + g1.length + w1.length + t1.length + ext + w2.length +
      g3.length + comma)

/-- Scan of `FindAllStringSubmatch(s, -1)`: repeated leftmost-first
matching; a failed attempt advances the start position by one character, a
successful match resumes after its end.  The fuel is the input length,
sufficient because every step consumes at least one character. -/
def colMatchesAux : Nat → List Char → List (List Char × List Char × List Char)
  | 0, _ => []
  | fuel + 1, s =>
    match matchColAt s with
    | some (g1, g2, g3, used) => (g1, g2, g3) :: colMatchesAux fuel (s.drop used)
    | none =>
      match s with
      | [] => []
      | _ :: t => colMatchesAux fuel t

/-- All matches of `ColumnDefRegex` in `s`. -/
def colMatches (s : List Char) : List (List Char × List Char × List Char) :=
  colMatchesAux s.length s

/-- `ColumnDef` of pkg/schema/schema.go. -/
structure ColumnDef where
  Name : String
  Typ : String
  Nullable : Bool
deriving DecidableEq, Repr

/-- `parseColumns` of pkg/schema/schema.go: for every regex match (the
`len(match) >= 3` guard always holds, a match has its three groups) whose
first group does not start, case-insensitively, with PRIMARY, KEY, INDEX or
CONSTRAINT, emit a column: name = group 1 with backticks trimmed, type (Go field `Type`, here `Typ`) =
group 2 upper-cased, nullable = group 3 upper-cased does not contain
"NOT NULL". -/
def parseColumns (columnDefs : String) : List ColumnDef :=
  (colMatches columnDefs.data).filterMap fun m =>
    match m with
    | (g1, g2, g3) =>
      if strHasPrefix (upperStr g1.asString) "PRIMARY"
          || strHasPrefix (upperStr g1.asString) "KEY"
          || strHasPrefix (upperStr g1.asString) "INDEX"
          || strHasPrefix (upperStr g1.asString) "CONSTRAINT" then none
      else some ⟨trimChars g1.asString [backtickChar], upperStr g2.asString,
        !(containsStr (upperStr g3.asString) "NOT NULL")⟩

/-! `CreateTableRegex` is
`(?i)CREATE TABLE\s+(?:[^.]+\.)?([^\s(]+)\s*\((.*?)\)[^;]*;`, used through
`FindStringSubmatch` (first leftmost match; groups 1 and 2 are consumed).
Backtracking analysis: `[^.]+` inside the optional group can only end at
the first dot, so the option either takes `up-to-first-dot` plus the dot or
is skipped entirely (tried in that, greedy, order); `([^\s(]+)` and the
following `\s*` are maximal runs with no viable shorter alternative; the
lazy `(.*?)` stops at the first `)` (it cannot cross a newline, `.` does
not match one); `[^;]*` runs to the first `;` after that `)` and the final
`;` consumes it — if no `;` follows the first `)`, no `;` follows any later
`)` either, so the attempt fails. -/

/-- Character class `[^\s(]` of `CreateTableRegex`. -/
def nameChar (c : Char) : Bool := !reSpace c && c != '('

/-- The suffix `([^\s(]+)\s*\((.*?)\)[^;]*;` of `CreateTableRegex`:
returns `(group1, group2)`. -/
def ctName (s : List Char) : Option (List Char × List Char) :=
  let n := s.takeWhile nameChar
  if n.length = 0 then none else
  let s1 := s.drop n.length
  let s2 := s1.drop (s1.takeWhile reSpace).length
  match s2 with
  | '(' :: s3 =>
    let b := s3.takeWhile (fun c => c != ')' && c != '\n')
    let s4 := s3.drop b.length
    match s4 with
    | ')' :: s5 =>
      let t := s5.takeWhile (fun c => c != ';')
      if (s5.drop t.length).head? = some ';' then some (n, b) else none
    | _ => none
  | _ => none

/-- The suffix `\s+(?:[^.]+\.)?([^\s(]+)...` of `CreateTableRegex`. -/
def ctTail (s : List Char) : Option (List Char × List Char) :=
  let w := s.takeWhile reSpace
  if w.length = 0 then none else
  let s1 := s.drop w.length
  let r := s1.takeWhile (fun c => c != '.')
  let viaDot :=
    if r.length > 0 && (s1.drop r.length).head? = some '.' then
      ctName (s1.drop (r.length + 1))
    else none
  match viaDot with
  | some res => some res
  | none => ctName s1

/-- `CreateTableRegex.FindStringSubmatch`: scan start positions left to
right; at each, require the case-insensitive literal `CREATE TABLE` and
then the rest of the pattern. -/
def findCreateTable : List Char → Option (List Char × List Char)
  | [] => none
  | c :: t =>
    if List.map Char.toUpper ((c :: t).take 12) = "CREATE TABLE".data then
      match ctTail ((c :: t).drop 12) with
      | some r => some r
      | none => findCreateTable t
    else findCreateTable t

/-- `TableDef` of pkg/schema/schema.go. -/
structure TableDef where
  Name : String
  Schema : String
  Columns : List ColumnDef
deriving DecidableEq, Repr

/-- The loop state of `parseSQLSchema`: the current schema set by `USE`
lines, the multi-line statement buffer, and the `SchemaDefinitions` map
being populated. -/
structure SQLState where
  currentSchema : String
  buffer : String
  defs : GoMap TableDef
deriving DecidableEq, Repr

/-- One iteration of the scanner loop of `parseSQLSchema`
(pkg/schema/schema.go lines 79-115): trim the line; skip blanks and
comments; on a `USE ` prefix (tested on the upper-cased line) set
`currentSchema` to the upper-cased line with the prefix removed and
space/semicolon/backtick trimmed; otherwise append the line plus a space
to the buffer, and when the line ends in `;` run `CreateTableRegex` on the
buffered statement, registering a table under the key
`currentSchema.tableName` on a match, and reset the buffer. -/
def procSQLLine (st : SQLState) (raw : String) : SQLState :=
  let line := trimSpaceStr raw
  if line = "" || strHasPrefix line "--" || strHasPrefix line "/*" then st
  else if strHasPrefix (upperStr line) "USE " then
    ⟨trimChars (trimPrefixStr (upperStr line) "USE ") [' ', ';', backtickChar],
      st.buffer, st.defs⟩
  else
    let buf := st.buffer ++ line ++ " "
    if strHasSuffix line ";" then
      match findCreateTable buf.data with
      | some (g1, g2) =>
        let tableName := trimChars g1.asString [backtickChar]
        let key := st.currentSchema ++ "." ++ tableName
        ⟨st.currentSchema, "",
          mapInsert st.defs key ⟨tableName, st.currentSchema, parseColumns g2.asString⟩⟩
      | none => ⟨st.currentSchema, "", st.defs⟩
    else ⟨st.currentSchema, buf, st.defs⟩

/-- `parseSQLSchema` of pkg/schema/schema.go, as a function of the file's
lines; returns the resulting `SchemaDefinitions` map. -/
def parseSQLSchema (fileLines : List String) : GoMap TableDef :=
  (fileLines.foldl procSQLLine ⟨"", "", []⟩).defs

/-- `GetTableDef` of pkg/schema/schema.go, over an explicit
`SchemaDefinitions` map. -/
def GetTableDef (defs : GoMap TableDef) (schema table : String) :
    Option TableDef :=
  mapGet defs (schema ++ "." ++ table)

/-! ## cmd/main.go — the row projector `createDMLEvent` -/

/-- `DMLEvent` of cmd/main.go; the row values (Go `interface{}`) are kept
abstract in `α`. -/
structure DMLEvent (α : Type) where
  Operation : String
  Table : String
  Database : String
  Timestamp : Nat
  LogPos : Nat
  RowValues : GoMap α
  OldValues : Option (GoMap α)
  GTID : String
deriving Repr

/-- The found-table branch of `createDMLEvent` (main.go lines 246-261):
`for i, val := range row { if i < len(columns) { m[columns[i].Name] = val } }`. -/
def buildNamedValues {α : Type} (cols : List ColumnDef) (row : List α) :
    GoMap α :=
  row.enum.foldl
    (fun m iv =>
      match cols[iv.1]? with
      | some c => mapInsert m c.Name iv.2
      | none => m) []

/-- The no-table branch of `createDMLEvent` (main.go lines 262-273):
`for i, val := range row { m[fmt.Sprintf("col_%d", i)] = val }`. -/
def buildPositionalValues {α : Type} (row : List α) : GoMap α :=
  row.enum.foldl (fun m iv => mapInsert m ("col_" ++ Nat.repr iv.1) iv.2) []

/-- `createDMLEvent` of cmd/main.go, with the process-wide
`SchemaDefinitions` map passed explicitly and the event header fields as
scalar arguments. -/
def createDMLEvent {α : Type} (defs : GoMap TableDef) (operation : String)
    (timestamp logPos : Nat) (database table gtid : String)
    (row : List α) (oldRow : Option (List α)) : DMLEvent α :=
  match GetTableDef defs database table with
  | some td =>
    ⟨operation, table, database, timestamp, logPos,
      buildNamedValues td.Columns row,
      oldRow.map (buildNamedValues td.Columns), gtid⟩
  | none =>
    ⟨operation, table, database, timestamp, logPos,
      buildPositionalValues row, oldRow.map buildPositionalValues, gtid⟩

/-! ## The alternative `SchemaRegistry` implementation (package schema)

This is the file holding `SchemaRegistry`, `LoadFromFile`, `GetTableInfo`
and `PrintWarnings`.  Namespaced `Reg` here because its Go type names
(`Column`, `Table`, `Database`) clash with common names. -/

namespace Reg

/-- `Column` of the registry implementation. -/
structure Column where
  Name : String
  DataType : String
deriving DecidableEq, Repr

/-- `Table` of the registry implementation. -/
structure Table where
  Name : String
  Columns : List Column
deriving DecidableEq, Repr

/-- `Database` of the registry implementation. -/
structure Database where
  Name : String
  Tables : GoMap Table
deriving DecidableEq, Repr

/-- `SchemaRegistry`: the catalog plus the warning (miss) counters guarded
by `warnMutex`; the mutex itself is modelled separately (see the `Mutex`
namespace). -/
structure SchemaRegistry where
  Databases : GoMap Database
  warnings : GoMap Nat
deriving DecidableEq, Repr

/-- `GetTableInfo`: on a hit returns the table and leaves the registry
unchanged; on a miss returns `none` and increments `warnings[db.table]`
(Go's `sr.warnings[key]++`, a missing key reading as 0). -/
def GetTableInfo (sr : SchemaRegistry) (database table : String) :
    Option Table × SchemaRegistry :=
  match mapGet sr.Databases database with
  | some db =>
    match mapGet db.Tables table with
    | some tbl => (some tbl, sr)
    | none =>
      let key := database ++ "." ++ table
      (none,
        ⟨sr.Databases,
          mapInsert sr.warnings key ((mapGet sr.warnings key).getD 0 + 1)⟩)
  | none =>
    let key := database ++ "." ++ table
    (none,
      ⟨sr.Databases,
        mapInsert sr.warnings key ((mapGet sr.warnings key).getD 0 + 1)⟩)

/-- `tableWarning` of the registry implementation. -/
structure tableWarning where
  name : String
  count : Nat
deriving DecidableEq, Repr

/-- The non-strict counterpart of the `sort.Slice` comparator of
`PrintWarnings`: `a` may precede `b` iff `b` need not strictly precede `a`,
i.e. count descending with ties broken by name ascending. -/
def warnLe (a b : tableWarning) : Bool :=
  decide (b.count < a.count) ||
    (decide (a.count = b.count) && decide (a.name ≤ b.name))

/-- The ordered warning list printed by `PrintWarnings`: the `warnings`
entries sorted by the `sort.Slice` comparator (count descending, ties by
name ascending; the keys are distinct, so the sorted sequence is unique and
a merge sort realises it). -/
def missReport (w : GoMap Nat) : List tableWarning :=
  (w.map fun p => ⟨p.1, p.2⟩).mergeSort warnLe

end Reg

/-! The column extraction of the registry's `LoadFromFile` (lines 106-126):
the parenthesized body is split on every comma (`strings.Split`), each
piece is trimmed and matched against `columnRegex`
`^\s*([^\s]+)\s+([^,\n]+)(?:,|$)`, and pieces whose upper-cased text starts
with PRIMARY KEY, KEY, UNIQUE KEY or CONSTRAINT are dropped.

Backtracking analysis of `columnRegex` (anchored, first match only): after
the maximal `[^\s]+` and a maximal `\s+`, the greedy `[^,\n]+` stops at the
first comma, newline or the end; `(?:,|$)` then succeeds iff it stopped at
a comma or the end.  The only surviving backtrack point: when `[^,\n]+`
would be empty because a comma follows the whitespace run directly, `\s+`
gives back its last character — whitespace is in `[^,\n]` — so group 2
becomes that single whitespace character (possible only when the run has
at least two characters). -/

/-- Anchored match of `columnRegex`, returning `(group1, group2)`. -/
def matchColumnLine (s : List Char) : Option (List Char × List Char) :=
  let w0 := s.takeWhile reSpace
  let s1 := s.drop w0.length
  let g1 := s1.takeWhile (fun c => !reSpace c)
  if g1.length = 0 then none else
  let s2 := s1.drop g1.length
  let sp := s2.takeWhile reSpace
  if sp.length = 0 then none else
  let s3 := s2.drop sp.length
  let g2 := s3.takeWhile (fun c => c != ',' && c != '\n')
  if g2.length > 0 then
    if (s3.drop g2.length).head? = some ',' || s3.drop g2.length = [] then
      some (g1, g2)
    else none
  else
    if s3.head? = some ',' && sp.length ≥ 2 then
      match sp.getLast? with
      | some c => some (g1, [c])
      | none => none
    else none

/-- Model of `strings.Split(s, ",")`. -/
def splitOnCommaStr (s : String) : List String :=
  (s.data.splitOn ',').map List.asString

/-- The per-statement column extraction of the registry's `LoadFromFile`:
naive comma split of the parenthesized body, per-piece `columnRegex` match
and key/constraint filtering. -/
def part005ParseColumnsPart (columnsPart : String) : List Reg.Column :=
  (splitOnCommaStr columnsPart).filterMap fun piece =>
    let line := trimSpaceStr piece
    match matchColumnLine line.data with
    | some (g1, g2) =>
      if !(strHasPrefix (upperStr line) "PRIMARY KEY")
          && !(strHasPrefix (upperStr line) "KEY")
          && !(strHasPrefix (upperStr line) "UNIQUE KEY")
          && !(strHasPrefix (upperStr line) "CONSTRAINT") then
        some ⟨trimChars g1.asString [backtickChar, squoteChar],
          trimSpaceStr g2.asString⟩
      else none
    | none => none

/-! ## Injectivity of `Nat.repr`

Needed to show that the synthetic column keys `col_0, col_1, …` of the
positional fallback are pairwise distinct. -/

/-- Decimal digit characters of `n`, most significant first; the
fuel-free counterpart of `Nat.toDigitsCore 10`. -/
def decDigits (n : Nat) : List Char :=
  if n < 10 then [Nat.digitChar n]
  else decDigits (n / 10) ++ [Nat.digitChar (n % 10)]
decreasing_by
  rename_i h
  exact Nat.div_lt_self (by omega) (by omega)

theorem toDigitsCore_eq_decDigits (fuel : Nat) :
    ∀ (n : Nat) (ds : List Char), n < fuel →
      Nat.toDigitsCore 10 fuel n ds = decDigits n ++ ds := by
  induction fuel with
  | zero => intro n ds h; omega
  | succ f ih =>
    intro n ds h
    by_cases h10 : n / 10 = 0
    · have hn : n < 10 := by omega
      rw [Nat.toDigitsCore, if_pos h10, decDigits, if_pos hn,
        Nat.mod_eq_of_lt hn]
      simp
    · have hn : 10 ≤ n := by omega
      have hlt : n / 10 < f :=
        lt_of_lt_of_le (Nat.div_lt_self (by omega) (by omega)) (by omega)
      rw [Nat.toDigitsCore, if_neg h10, ih (n / 10) _ hlt]
      conv_rhs => rw [decDigits]
      rw [if_neg (by omega)]
      simp

/-- Numeric value of a digit character. -/
def digitVal (c : Char) : Nat := c.toNat - 48

theorem digitVal_digitChar (d : Nat) (h : d < 10) :
    digitVal (Nat.digitChar d) = d := by
  interval_cases d <;> decide

/-- Decimal value of a digit-character list, most significant first. -/
def digitsVal (l : List Char) : Nat :=
  l.foldl (fun a c => a * 10 + digitVal c) 0

theorem foldl_decDigits (n : Nat) :
    ∀ a : Nat,
      (decDigits n).foldl (fun a c => a * 10 + digitVal c) a =
        a * 10 ^ (decDigits n).length + n := by
  induction n using Nat.strong_induction_on with
  | _ n ih =>
    intro a
    by_cases h : n < 10
    · rw [decDigits, if_pos h]
      simp [digitVal_digitChar n h]
    · rw [decDigits, if_neg h]
      have hlt : n / 10 < n := Nat.div_lt_self (by omega) (by omega)
      rw [List.foldl_append, ih (n / 10) hlt a]
      simp [digitVal_digitChar (n % 10) (Nat.mod_lt n (by omega)), pow_succ]
      ring_nf
      omega

theorem digitsVal_decDigits (n : Nat) : digitsVal (decDigits n) = n := by
  have := foldl_decDigits n 0
  simpa [digitsVal] using this

theorem decDigits_injective : Function.Injective decDigits := by
  intro a b h
  have := congrArg digitsVal h
  simpa [digitsVal_decDigits] using this

theorem repr_eq_decDigits (n : Nat) : Nat.repr n = (decDigits n).asString := by
  rw [Nat.repr, Nat.toDigits, toDigitsCore_eq_decDigits (n + 1) n [] (by omega)]
  simp

theorem natRepr_injective : Function.Injective Nat.repr := by
  intro a b h
  rw [repr_eq_decDigits, repr_eq_decDigits] at h
  apply decDigits_injective
  have : (decDigits a).asString.data = (decDigits b).asString.data := by rw [h]
  simpa [List.asString] using this

theorem colKey_injective (i j : Nat) (h : "col_" ++ Nat.repr i = "col_" ++ Nat.repr j) :
    i = j := by
  apply natRepr_injective
  have hd : ("col_" ++ Nat.repr i).data = ("col_" ++ Nat.repr j).data := by rw [h]
  simp only [String.data_append] at hd
  have := List.append_cancel_left hd
  cases hi : Nat.repr i
  all_goals cases hj : Nat.repr j
  all_goals simp_all [String.ext_iff]

/-! ## Interleaving model of the miss-counter increment under `warnMutex`

`GetTableInfo` performs `warnMutex.Lock(); sr.warnings[key]++;
warnMutex.Unlock()`.  The increment is modelled as two atomic machine
steps (read the counter, write the read value plus one), and the lock as a
boolean; a thread may take the read/write/unlock steps only in the program
states it can only reach after acquiring the lock.  Threads are anonymous,
so the thread pool is a multiset of program counters. -/

namespace Mutex

/-- Program counter of one thread executing the miss path of
`GetTableInfo`: before `Lock()`; holding the lock; having read the counter
value `v`; having written `v+1`; after `Unlock()`. -/
inductive PC where
  | start
  | locked
  | readv (v : Nat)
  | wrote
  | finished
deriving DecidableEq

/-- Global state: the mutex, the shared counter cell `warnings[key]`, and
every thread's program counter. -/
structure Cfg where
  lock : Bool
  ctr : Nat
  pcs : Multiset PC

/-- One interleaving step: acquire the free lock, read the counter, write
the incremented value, release the lock. -/
inductive Step : Cfg → Cfg → Prop where
  | acquire (c : Nat) (rest : Multiset PC) :
      Step ⟨false, c, PC.start ::ₘ rest⟩ ⟨true, c, PC.locked ::ₘ rest⟩
  | read (l : Bool) (c : Nat) (rest : Multiset PC) :
      Step ⟨l, c, PC.locked ::ₘ rest⟩ ⟨l, c, PC.readv c ::ₘ rest⟩
  | write (l : Bool) (c v : Nat) (rest : Multiset PC) :
      Step ⟨l, c, PC.readv v ::ₘ rest⟩ ⟨l, v + 1, PC.wrote ::ₘ rest⟩
  | release (l : Bool) (c : Nat) (rest : Multiset PC) :
      Step ⟨l, c, PC.wrote ::ₘ rest⟩ ⟨false, c, PC.finished ::ₘ rest⟩

/-- Number of increments a thread in this state has already applied. -/
def contrib : PC → Nat
  | .wrote => 1
  | .finished => 1
  | _ => 0

/-- Whether a thread in this state holds the lock. -/
def active : PC → Bool
  | .locked => true
  | .readv _ => true
  | .wrote => true
  | _ => false

@[simp]
theorem contrib_start : contrib PC.start = 0 := rfl

@[simp]
theorem contrib_locked : contrib PC.locked = 0 := rfl

@[simp]
theorem contrib_readv (v : Nat) : contrib (PC.readv v) = 0 := rfl

@[simp]
theorem contrib_wrote : contrib PC.wrote = 1 := rfl

@[simp]
theorem contrib_finished : contrib PC.finished = 1 := rfl

@[simp]
theorem active_start : active PC.start = false := rfl

@[simp]
theorem active_locked : active PC.locked = true := rfl

@[simp]
theorem active_readv (v : Nat) : active (PC.readv v) = true := rfl

@[simp]
theorem active_wrote : active PC.wrote = true := rfl

@[simp]
theorem active_finished : active PC.finished = false := rfl

/-- Total number of increments already applied by the pool. -/
def incCount (s : Multiset PC) : Nat := (s.map contrib).sum

/-- Number of threads in the pool currently holding the lock. -/
def actCount (s : Multiset PC) : Nat :=
  (s.map (fun p => if active p then 1 else 0)).sum

@[simp]
theorem incCount_cons (p : PC) (s : Multiset PC) :
    incCount (p ::ₘ s) = contrib p + incCount s := by
  simp [incCount]

@[simp]
theorem actCount_cons (p : PC) (s : Multiset PC) :
    actCount (p ::ₘ s) = (if active p then 1 else 0) + actCount s := by
  simp [actCount]

theorem active_false_of_actCount_zero {s : Multiset PC} (h : actCount s = 0)
    {p : PC} (hp : p ∈ s) : active p = false := by
  have hz := Multiset.sum_eq_zero_iff.mp h
    ((fun p => if active p then 1 else 0) p) (Multiset.mem_map_of_mem _ hp)
  by_cases ha : active p
  · simp [ha] at hz
  · simpa using ha

/-- Inductive invariant: the counter equals the base plus the applied
increments; at most one thread holds the lock, none when it is free; a
thread that has read `v` read the current value. -/
def Inv (base : Nat) (g : Cfg) : Prop :=
  g.ctr = base + incCount g.pcs
    ∧ actCount g.pcs ≤ 1
    ∧ (g.lock = false → actCount g.pcs = 0)
    ∧ ∀ v : Nat, PC.readv v ∈ g.pcs → v = g.ctr

theorem inv_step {base : Nat} {g g' : Cfg} (hs : Step g g')
    (hi : Inv base g) : Inv base g' := by
  cases hs with
  | acquire c rest =>
    obtain ⟨h1, h2, h3, h4⟩ := hi
    have hz : actCount rest = 0 := by simpa using h3 rfl
    refine ⟨by simpa using h1, by simp [hz], by simp, ?_⟩
    intro v hv
    rcases Multiset.mem_cons.1 hv with h | h
    · exact absurd h (by simp)
    · exact absurd (active_false_of_actCount_zero hz h) (by simp)
  | read l c rest =>
    obtain ⟨h1, h2, h3, h4⟩ := hi
    have hrest : actCount rest = 0 := by
      have := h2
      simp at this
      omega
    refine ⟨by simpa using h1, by simp [hrest], ?_, ?_⟩
    · intro hl
      have := h3 (by simpa using hl)
      simp at this
    · intro v hv
      rcases Multiset.mem_cons.1 hv with h | h
      · simp at h
        simp [h]
      · exact absurd (active_false_of_actCount_zero hrest h) (by simp)
  | write l c v rest =>
    obtain ⟨h1, h2, h3, h4⟩ := hi
    have hv : v = c := h4 v (Multiset.mem_cons_self _ _)
    have hrest : actCount rest = 0 := by
      have := h2
      simp at this
      omega
    have h1n : c = base + incCount rest := by simpa using h1
    refine ⟨by simp; omega, by simp [hrest], ?_, ?_⟩
    · intro hl
      have := h3 (by simpa using hl)
      simp at this
    · intro w hw
      rcases Multiset.mem_cons.1 hw with h | h
      · exact absurd h (by simp)
      · exact absurd (active_false_of_actCount_zero hrest h) (by simp)
  | release l c rest =>
    obtain ⟨h1, h2, h3, h4⟩ := hi
    have hrest : actCount rest = 0 := by
      have := h2
      simp at this
      omega
    refine ⟨by simpa using h1, by simp [hrest], by simp [hrest], ?_⟩
    intro w hw
    rcases Multiset.mem_cons.1 hw with h | h
    · exact absurd h (by simp)
    · exact absurd (active_false_of_actCount_zero hrest h) (by simp)

theorem inv_reaches {base : Nat} {g g' : Cfg}
    (h : Relation.ReflTransGen Step g g') (hi : Inv base g) : Inv base g' := by
  induction h with
  | refl => exact hi
  | tail _ hstep ih => exact inv_step hstep ih

theorem inv_init (base n : Nat) :
    Inv base ⟨false, base, Multiset.replicate n PC.start⟩ := by
  refine ⟨?_, ?_, ?_, ?_⟩
  · simp [incCount, Multiset.map_replicate, Multiset.sum_replicate]
  · simp [actCount, Multiset.map_replicate, Multiset.sum_replicate]
  · intro _
    simp [actCount, Multiset.map_replicate, Multiset.sum_replicate]
  · intro v hv
    exact absurd (Multiset.eq_of_mem_replicate hv) (by simp)

theorem incCount_replicate_finished (n : Nat) :
    incCount (Multiset.replicate n PC.finished) = n := by
  simp [incCount, Multiset.map_replicate, Multiset.sum_replicate]

end Mutex

/-! ## General lemmas about the two field-map builders -/

theorem nodup_name_ne (cols : List ColumnDef)
    (hnd : (cols.map ColumnDef.Name).Nodup) {n j : Nat} {c c2 : ColumnDef}
    (hne : n ≠ j) (hn : cols[n]? = some c) (hj : cols[j]? = some c2) :
    c.Name ≠ c2.Name := by
  intro he
  have hlen : n < cols.length := (List.getElem?_eq_some.1 hn).1
  have h1 : (cols.map ColumnDef.Name)[n]? = some c.Name := by
    rw [List.getElem?_map, hn]; rfl
  have h2 : (cols.map ColumnDef.Name)[j]? = some c2.Name := by
    rw [List.getElem?_map, hj]; rfl
  have hlen2 : n < (cols.map ColumnDef.Name).length := by simpa using hlen
  exact hne (List.getElem?_inj hlen2 hnd (by rw [h1, h2, he]))

theorem buildNamed_aux {α : Type} (cols : List ColumnDef)
    (hnd : (cols.map ColumnDef.Name).Nodup) :
    ∀ (row : List α) (n : Nat) (acc : GoMap α),
      (∀ j c, n ≤ j → cols[j]? = some c → mapGet acc c.Name = none) →
      (List.enumFrom n row).foldl
        (fun m iv =>
          match cols[iv.1]? with
          | some c => mapInsert m c.Name iv.2
          | none => m) acc
      = acc ++ ((cols.drop n).map ColumnDef.Name).zip row := by
  intro row
  induction row with
  | nil =>
    intro n acc hacc
    simp
  | cons v row ih =>
    intro n acc hacc
    rw [show List.enumFrom n (v :: row) = (n, v) :: List.enumFrom (n + 1) row
      from rfl, List.foldl_cons]
    cases hcv : cols[n]? with
    | some c =>
      have hget : mapGet acc c.Name = none := hacc n c (le_refl n) hcv
      dsimp only
      rw [mapInsert_of_get_none _ _ _ hget, ih (n + 1) (acc ++ [(c.Name, v)]) ?_]
      · have hn : n < cols.length := (List.getElem?_eq_some.1 hcv).1
        have hdrop : cols.drop n = c :: cols.drop (n + 1) := by
          rw [List.drop_eq_getElem_cons hn, (List.getElem?_eq_some.1 hcv).2]
        rw [hdrop, List.map_cons, List.zip_cons_cons, List.append_assoc]
        rfl
      · intro j c2 hj hc2
        have hne : c.Name ≠ c2.Name :=
          nodup_name_ne cols hnd (by omega) hcv hc2
        rw [mapGet_append_of_none _ _ _ (hacc j c2 (by omega) hc2)]
        simp [mapGet, hne]
    | none =>
      have hlen : cols.length ≤ n := by
        rcases Nat.lt_or_ge n cols.length with hlt | hge
        · rw [List.getElem?_eq_getElem hlt] at hcv
          cases hcv
        · exact hge
      dsimp only
      rw [ih (n + 1) acc (fun j c2 hj hc2 => hacc j c2 (by omega) hc2)]
      rw [List.drop_eq_nil_of_le hlen, List.drop_eq_nil_of_le (by omega)]
      simp

theorem buildNamedValues_eq_zip {α : Type} (cols : List ColumnDef)
    (hnd : (cols.map ColumnDef.Name).Nodup) (row : List α) :
    buildNamedValues cols row = (cols.map ColumnDef.Name).zip row := by
  have h := buildNamed_aux cols hnd row 0 [] (by intro j c _ _; rfl)
  simpa [buildNamedValues] using h

theorem buildPos_aux {α : Type} :
    ∀ (row : List α) (n : Nat) (acc : GoMap α),
      (∀ j, n ≤ j → mapGet acc ("col_" ++ Nat.repr j) = none) →
      (List.enumFrom n row).foldl
        (fun m iv => mapInsert m ("col_" ++ Nat.repr iv.1) iv.2) acc
      = acc ++ (List.enumFrom n row).map
          (fun iv => ("col_" ++ Nat.repr iv.1, iv.2)) := by
  intro row
  induction row with
  | nil =>
    intro n acc hacc
    simp
  | cons v row ih =>
    intro n acc hacc
    rw [show List.enumFrom n (v :: row) = (n, v) :: List.enumFrom (n + 1) row
      from rfl, List.foldl_cons]
    dsimp only
    rw [mapInsert_of_get_none _ _ _ (hacc n (le_refl n)), ih (n + 1) _ ?_]
    · simp
    · intro j hj
      rw [mapGet_append_of_none _ _ _ (hacc j (by omega))]
      have hne : ("col_" ++ Nat.repr n : String) ≠ "col_" ++ Nat.repr j := by
        intro he
        exact absurd (colKey_injective n j he) (by omega)
      simp [mapGet, hne]

theorem buildPositionalValues_eq {α : Type} (row : List α) :
    buildPositionalValues row
      = row.enum.map (fun iv => ("col_" ++ Nat.repr iv.1, iv.2)) := by
  have h := buildPos_aux row 0 [] (by intro j _; rfl)
  simpa [buildPositionalValues] using h

/-! ## Helper lemmas about the registry's `GetTableInfo` -/

namespace Reg

/-- The pure lookup part of `GetTableInfo` (the two nested map reads). -/
def lookupTable (sr : SchemaRegistry) (database table : String) :
    Option Table :=
  match mapGet sr.Databases database with
  | some db => mapGet db.Tables table
  | none => none

theorem getTableInfo_databases (sr : SchemaRegistry) (db t : String) :
    ((GetTableInfo sr db t).2).Databases = sr.Databases := by
  rcases h1 : mapGet sr.Databases db with _ | d
  · simp [GetTableInfo, h1]
  · rcases h2 : mapGet d.Tables t with _ | tb
    · simp [GetTableInfo, h1, h2]
    · simp [GetTableInfo, h1, h2]

theorem getTableInfo_miss (sr : SchemaRegistry) (db t : String)
    (h : lookupTable sr db t = none) :
    (GetTableInfo sr db t).1 = none
    ∧ ((GetTableInfo sr db t).2).warnings
        = mapInsert sr.warnings (db ++ "." ++ t)
            ((mapGet sr.warnings (db ++ "." ++ t)).getD 0 + 1) := by
  rcases h1 : mapGet sr.Databases db with _ | d
  · constructor <;> simp [GetTableInfo, h1]
  · rcases h2 : mapGet d.Tables t with _ | tb
    · constructor <;> simp [GetTableInfo, h1, h2]
    · have h2' : mapGet d.Tables t = none := by
        rw [lookupTable, h1] at h
        exact h
      rw [h2] at h2'
      cases h2'

theorem lookupTable_congr {sr sr2 : SchemaRegistry}
    (h : sr2.Databases = sr.Databases) (db t : String) :
    lookupTable sr2 db t = lookupTable sr db t := by
  rw [lookupTable, lookupTable, h]

/-- `N` successive `GetTableInfo` calls for the same key (the mutex makes
concurrent calls equivalent to some sequential order). -/
def iterGetTableInfo (sr : SchemaRegistry) (database table : String) :
    Nat → SchemaRegistry
  | 0 => sr
  | n + 1 => (GetTableInfo (iterGetTableInfo sr database table n) database table).2

theorem iterGetTableInfo_databases (sr : SchemaRegistry) (db t : String)
    (n : Nat) : (iterGetTableInfo sr db t n).Databases = sr.Databases := by
  induction n with
  | zero => rfl
  | succ n ih =>
    rw [iterGetTableInfo, getTableInfo_databases, ih]

end Reg

/-! ## Further shared helpers for the claims -/

theorem mem_of_mapGet {α : Type} {m : GoMap α} {k : String} {v : α}
    (h : mapGet m k = some v) : (k, v) ∈ m := by
  induction m with
  | nil => cases h
  | cons head rest ih =>
    obtain ⟨k0, v0⟩ := head
    by_cases h0 : k0 = k
    · subst h0
      rw [mapGet, if_pos rfl] at h
      cases h
      exact List.mem_cons_self _ _
    · rw [mapGet, if_neg h0] at h
      exact List.mem_cons_of_mem _ (ih h)

theorem warnLe_trans (a b c : Reg.tableWarning)
    (hab : Reg.warnLe a b = true) (hbc : Reg.warnLe b c = true) :
    Reg.warnLe a c = true := by
  simp only [Reg.warnLe, Bool.or_eq_true, Bool.and_eq_true,
    decide_eq_true_iff] at hab hbc ⊢
  rcases hab with h1 | ⟨h1e, h1n⟩
  · rcases hbc with h2 | ⟨h2e, h2n⟩
    · exact Or.inl (h2.trans h1)
    · exact Or.inl (h2e ▸ h1)
  · rcases hbc with h2 | ⟨h2e, h2n⟩
    · exact Or.inl (h1e ▸ h2)
    · exact Or.inr ⟨h1e.trans h2e, le_trans h1n h2n⟩

theorem warnLe_total (a b : Reg.tableWarning) :
    (Reg.warnLe a b || Reg.warnLe b a) = true := by
  simp only [Reg.warnLe, Bool.or_eq_true, Bool.and_eq_true,
    decide_eq_true_iff]
  rcases Nat.lt_trichotomy a.count b.count with h | h | h
  · exact Or.inr (Or.inl h)
  · rcases le_total a.name b.name with hn | hn
    · exact Or.inl (Or.inr ⟨h, hn⟩)
    · exact Or.inr (Or.inr ⟨h.symm, hn⟩)
  · exact Or.inl (Or.inl h)

theorem iter_miss_count (sr : Reg.SchemaRegistry) (db t : String)
    (h : Reg.lookupTable sr db t = none) (N : Nat) :
    (mapGet (Reg.iterGetTableInfo sr db t N).warnings (db ++ "." ++ t)).getD 0
      = (mapGet sr.warnings (db ++ "." ++ t)).getD 0 + N
    ∧ (0 < N →
        mapGet (Reg.iterGetTableInfo sr db t N).warnings (db ++ "." ++ t)
          = some ((mapGet sr.warnings (db ++ "." ++ t)).getD 0 + N)) := by
  induction N with
  | zero => exact ⟨by simp [Reg.iterGetTableInfo], by omega⟩
  | succ n ih =>
    have hmiss : Reg.lookupTable (Reg.iterGetTableInfo sr db t n) db t = none := by
      rw [Reg.lookupTable_congr (Reg.iterGetTableInfo_databases sr db t n)]
      exact h
    obtain ⟨_, hw⟩ := Reg.getTableInfo_miss _ db t hmiss
    constructor
    · rw [Reg.iterGetTableInfo, hw, mapGet_insert_self, Option.getD_some, ih.1]
      omega
    · intro _
      rw [Reg.iterGetTableInfo, hw, mapGet_insert_self, ih.1]
      simp [Nat.add_assoc]

/-- Sample table definition with four distinct column names. -/
def sampleTd : TableDef :=
  ⟨"sbtest1", "sbtest", [⟨"id", "INT", true⟩, ⟨"k", "INT", true⟩,
    ⟨"c", "CHAR(120)", true⟩, ⟨"pad", "CHAR(60)", true⟩]⟩

/-- Sample `SchemaDefinitions` map holding `sampleTd`. -/
def sampleDefs : GoMap TableDef := [("sbtest.sbtest1", sampleTd)]

/-- Sample table definition with an empty column list. -/
def emptyTd : TableDef := ⟨"t", "d", []⟩

/-- Sample `SchemaDefinitions` map holding `emptyTd`. -/
def emptyDefs : GoMap TableDef := [("d.t", emptyTd)]

/-! ## The claims -/

/-- C1: when `(database, table)` resolves to a `TableDef` in the registry,
`createDMLEvent` builds the fields map by pairing `rowValues[i]` with
`columns[i].Name` for `i` below `min(len(rowValues), len(columns))` — as an
association list the map is exactly `zip (names, rowValues)`, so entries at
index at least `len(columns)` are dropped without error (for column names
that are pairwise distinct, so that Go-map assignment never overwrites). -/
theorem rowProjection_found_zips {α : Type} (defs : GoMap TableDef)
    (op : String) (ts lp : Nat) (db tbl gtid : String) (td : TableDef)
    (row : List α) (oldRow : Option (List α))
    (h : GetTableDef defs db tbl = some td)
    (hnd : (td.Columns.map ColumnDef.Name).Nodup) :
    (createDMLEvent defs op ts lp db tbl gtid row oldRow).RowValues
      = (td.Columns.map ColumnDef.Name).zip row := by
  unfold createDMLEvent
  rw [h]
  exact buildNamedValues_eq_zip td.Columns hnd row

/-- C1 witness: a found table with 4 columns and a 4-value row yields
exactly the 4 column names as keys, values in order. -/
theorem rowProjection_found_zips_witness :
    GetTableDef sampleDefs "sbtest" "sbtest1" = some sampleTd
    ∧ (sampleTd.Columns.map ColumnDef.Name).Nodup
    ∧ (createDMLEvent sampleDefs "INSERT" 0 0 "sbtest" "sbtest1" ""
        [10, 20, 30, 40] none).RowValues
      = [("id", 10), ("k", 20), ("c", 30), ("pad", 40)] :=
  ⟨by decide, by decide,
    rowProjection_found_zips sampleDefs "INSERT" 0 0 "sbtest" "sbtest1" ""
      sampleTd [10, 20, 30, 40] none (by decide) (by decide)⟩

/-- C2: a lookup of a (database, table) pair absent from the catalog
returns `none` (never an error), increments the miss counter of exactly
that key by exactly one, leaves every other key unchanged, and after `N`
such lookups the counter reads `N` more and the miss report contains the
key with that count. -/
theorem lookup_miss_counts (sr : Reg.SchemaRegistry) (db t : String)
    (h : Reg.lookupTable sr db t = none) :
    (Reg.GetTableInfo sr db t).1 = none
    ∧ mapGet ((Reg.GetTableInfo sr db t).2).warnings (db ++ "." ++ t)
        = some ((mapGet sr.warnings (db ++ "." ++ t)).getD 0 + 1)
    ∧ (∀ k, k ≠ db ++ "." ++ t →
        mapGet ((Reg.GetTableInfo sr db t).2).warnings k = mapGet sr.warnings k)
    ∧ (∀ N, 0 < N →
        mapGet (Reg.iterGetTableInfo sr db t N).warnings (db ++ "." ++ t)
          = some ((mapGet sr.warnings (db ++ "." ++ t)).getD 0 + N))
    ∧ ∀ N, 0 < N →
        Reg.tableWarning.mk (db ++ "." ++ t)
            ((mapGet sr.warnings (db ++ "." ++ t)).getD 0 + N)
          ∈ Reg.missReport (Reg.iterGetTableInfo sr db t N).warnings := by
  obtain ⟨hm1, hm2⟩ := Reg.getTableInfo_miss sr db t h
  refine ⟨hm1, ?_, ?_, ?_, ?_⟩
  · rw [hm2, mapGet_insert_self]
  · intro k hk
    rw [hm2, mapGet_insert_ne _ _ _ _ (Ne.symm hk)]
  · intro N hN
    exact (iter_miss_count sr db t h N).2 hN
  · intro N hN
    have hv := (iter_miss_count sr db t h N).2 hN
    have hmem := List.mem_map_of_mem
      (fun p : String × Nat => Reg.tableWarning.mk p.1 p.2) (mem_of_mapGet hv)
    exact ((List.mergeSort_perm _ _).mem_iff).2 hmem

/-- C2 witness: one and two misses on a fresh registry. -/
theorem lookup_miss_counts_witness :
    Reg.lookupTable ⟨[], []⟩ "sbtest" "missing" = none
    ∧ (Reg.GetTableInfo ⟨[], []⟩ "sbtest" "missing").1 = none
    ∧ mapGet ((Reg.GetTableInfo ⟨[], []⟩ "sbtest" "missing").2).warnings
        "sbtest.missing" = some 1 := by
  have h := lookup_miss_counts ⟨[], []⟩ "sbtest" "missing" rfl
  exact ⟨rfl, h.1, by simpa using h.2.1⟩

/-- C3: the claim says a comma nested inside parentheses never acts as a
clause separator; the code (the registry's `LoadFromFile` with its naive
`strings.Split` on commas, and likewise `parseColumns` whose regexp token
class excludes commas) fragments `c DECIMAL(10,2)` at the inner comma: the
column comes out with type `DECIMAL(10` and the fragment `2)` is lost.
The spec itself flags the depth-aware split as the intended contract, so
this is evidence of a code bug at the failing input
`a INT, c DECIMAL(10,2)`. -/
theorem nested_comma_fragments :
    splitOnCommaStr "a INT, c DECIMAL(10,2)" = ["a INT", " c DECIMAL(10", "2)"]
    ∧ part005ParseColumnsPart "a INT, c DECIMAL(10,2)"
      = [⟨"a", "INT"⟩, ⟨"c", "DECIMAL(10"⟩]
    ∧ parseColumns "a INT, c DECIMAL(10,2)"
      = [⟨"a", "INT", true⟩, ⟨"c", "DECIMAL(10", true⟩] := by
  refine ⟨by decide, by decide, by decide⟩

/-- C4 counterexample: in `parseColumns` a clause whose first token is
`UNIQUE` followed by `KEY` IS kept in the column list (as a bogus column
named `UNIQUE`), contradicting the claim that it never appears. -/
theorem parseColumns_unique_key_kept :
    parseColumns "id INT, UNIQUE KEY uk (id)"
      = [⟨"id", "INT", true⟩, ⟨"UNIQUE", "KEY UK (ID)", true⟩] := by
  decide

/-- C4 amended: every column emitted by `parseColumns` comes from a regexp
match whose first token does not start, case-insensitively, with `PRIMARY`,
`KEY`, `INDEX` or `CONSTRAINT` — the code's actual exclusion list, which
(unlike the claim's) does not cover `UNIQUE KEY`; the registry's
`LoadFromFile` differs again (it drops `UNIQUE KEY` but keeps `INDEX`). -/
theorem parseColumns_exclusion (body : String) (c : ColumnDef)
    (hc : c ∈ parseColumns body) :
    ∃ g1 g2 g3, (g1, g2, g3) ∈ colMatches body.data
      ∧ strHasPrefix (upperStr g1.asString) "PRIMARY" = false
      ∧ strHasPrefix (upperStr g1.asString) "KEY" = false
      ∧ strHasPrefix (upperStr g1.asString) "INDEX" = false
      ∧ strHasPrefix (upperStr g1.asString) "CONSTRAINT" = false
      ∧ c = ⟨trimChars g1.asString [backtickChar], upperStr g2.asString,
          !(containsStr (upperStr g3.asString) "NOT NULL")⟩ := by
  unfold parseColumns at hc
  rw [List.mem_filterMap] at hc
  obtain ⟨⟨g1, g2, g3⟩, hm, hf⟩ := hc
  dsimp only at hf
  by_cases hcond : (strHasPrefix (upperStr g1.asString) "PRIMARY"
      || strHasPrefix (upperStr g1.asString) "KEY"
      || strHasPrefix (upperStr g1.asString) "INDEX"
      || strHasPrefix (upperStr g1.asString) "CONSTRAINT") = true
  · rw [if_pos hcond] at hf
    cases hf
  · rw [if_neg hcond] at hf
    simp only [Bool.or_eq_true, not_or, Bool.not_eq_true] at hcond
    obtain ⟨⟨⟨hp1, hp2⟩, hp3⟩, hp4⟩ := hcond
    exact ⟨g1, g2, g3, hm, hp1, hp2, hp3, hp4, (Option.some.inj hf).symm⟩

/-- C4 amended witness: the ordinary clause `id INT` is kept and stems
from a non-excluded match. -/
theorem parseColumns_exclusion_witness :
    (⟨"id", "INT", true⟩ : ColumnDef) ∈ parseColumns "id INT"
    ∧ ∃ g1 g2 g3, (g1, g2, g3) ∈ colMatches "id INT".data
      ∧ strHasPrefix (upperStr g1.asString) "PRIMARY" = false
      ∧ strHasPrefix (upperStr g1.asString) "KEY" = false
      ∧ strHasPrefix (upperStr g1.asString) "INDEX" = false
      ∧ strHasPrefix (upperStr g1.asString) "CONSTRAINT" = false
      ∧ (⟨"id", "INT", true⟩ : ColumnDef)
        = ⟨trimChars g1.asString [backtickChar], upperStr g2.asString,
            !(containsStr (upperStr g3.asString) "NOT NULL")⟩ :=
  ⟨by decide, parseColumns_exclusion "id INT" ⟨"id", "INT", true⟩ (by decide)⟩

/-- C5: the claim says `USE sbtest;` registers following tables under
database `sbtest` so that a case-sensitive lookup of `(sbtest, sbtest1)`
finds them; the code upper-cases the whole line before stripping the
`USE ` prefix, so the table lands under `SBTEST` and the lookup misses —
evidence of a code bug at the failing input
`USE sbtest; CREATE TABLE sbtest1 (id INT);`. -/
theorem use_database_uppercased :
    GetTableDef (parseSQLSchema ["USE sbtest;", "CREATE TABLE sbtest1 (id INT);"])
        "sbtest" "sbtest1" = none
    ∧ GetTableDef (parseSQLSchema ["USE sbtest;", "CREATE TABLE sbtest1 (id INT);"])
        "SBTEST" "sbtest1"
      = some ⟨"sbtest1", "SBTEST", [⟨"id", "INT", true⟩]⟩ := by
  refine ⟨by decide, by decide⟩

/-- C6: the claim says the nullable flag is false when the clause contains
`NOT NULL`; in the code the greedy type group of `ColumnDefRegex` swallows
all modifiers, so the modifier group checked for `NOT NULL` is always
empty and `b VARCHAR(10) NOT NULL` comes out nullable — evidence of a code
bug at the failing input `CREATE TABLE t (a INT, b VARCHAR(10) NOT NULL);`
(clause body `a INT, b VARCHAR(10) NOT NULL`). -/
theorem notnull_modifier_unseen :
    parseColumns "a INT, b VARCHAR(10) NOT NULL"
      = [⟨"a", "INT", true⟩, ⟨"b", "VARCHAR(10) NOT NULL", true⟩]
    ∧ containsStr (upperStr "b VARCHAR(10) NOT NULL") "NOT NULL" = true := by
  refine ⟨by decide, by decide⟩

/-- C7: when the registry has no entry for `(database, table)`,
`createDMLEvent` always succeeds and builds the fields with the synthetic
keys `col_0, col_1, …` in positional order. -/
theorem rowProjection_fallback_positional {α : Type} (defs : GoMap TableDef)
    (op : String) (ts lp : Nat) (db tbl gtid : String)
    (row : List α) (oldRow : Option (List α))
    (h : GetTableDef defs db tbl = none) :
    (createDMLEvent defs op ts lp db tbl gtid row oldRow).RowValues
      = row.enum.map (fun iv => ("col_" ++ Nat.repr iv.1, iv.2)) := by
  unfold createDMLEvent
  rw [h]
  exact buildPositionalValues_eq row

/-- C7 witness: a 3-value row of an unresolvable table projects to
`col_0, col_1, col_2` in order. -/
theorem rowProjection_fallback_positional_witness :
    GetTableDef [] "sbtest" "missing" = none
    ∧ (createDMLEvent ([] : GoMap TableDef) "INSERT" 0 0 "sbtest" "missing" ""
        [10, 20, 30] none).RowValues
      = [("col_0", 10), ("col_1", 20), ("col_2", 30)] :=
  ⟨rfl, rowProjection_fallback_positional [] "INSERT" 0 0 "sbtest" "missing" ""
    [10, 20, 30] none rfl⟩

/-- C8: the miss report lists the `(key, count)` entries of the warning
map as a permutation sorted by count descending with ties broken by key
ascending. -/
theorem missReport_sorted_desc (w : GoMap Nat) :
    (Reg.missReport w).Perm (w.map fun p => Reg.tableWarning.mk p.1 p.2)
    ∧ (Reg.missReport w).Pairwise
        (fun a b => b.count < a.count ∨ (a.count = b.count ∧ a.name ≤ b.name)) := by
  constructor
  · exact List.mergeSort_perm _ _
  · have h := List.sorted_mergeSort warnLe_trans warnLe_total
      (w.map fun p => Reg.tableWarning.mk p.1 p.2)
    exact h.imp (by
      intro a b hab
      simpa [Reg.warnLe, Bool.or_eq_true, Bool.and_eq_true,
        decide_eq_true_iff] using hab)

/-- C9: under concurrent lookups the per-key miss-counter increment of
`GetTableInfo` — modelled as interleaved read and write steps guarded by
`warnMutex` — loses no increment: any full run of `n` missing lookups ends
with the counter raised by exactly `n`; and a lookup never mutates the
table catalog (`Databases`). -/
theorem missCounter_concurrent_safe (n base : Nat) (g : Mutex.Cfg)
    (hreach : Relation.ReflTransGen Mutex.Step
      ⟨false, base, Multiset.replicate n Mutex.PC.start⟩ g)
    (hdone : g.pcs = Multiset.replicate n Mutex.PC.finished) :
    g.ctr = base + n
    ∧ ∀ (sr : Reg.SchemaRegistry) (db tbl : String),
        ((Reg.GetTableInfo sr db tbl).2).Databases = sr.Databases := by
  constructor
  · have hi := Mutex.inv_reaches hreach (Mutex.inv_init base n)
    have h1 := hi.1
    rw [hdone, Mutex.incCount_replicate_finished] at h1
    exact h1
  · intro sr db tbl
    exact Reg.getTableInfo_databases sr db tbl

/-- C9 witness: an explicit one-thread run. -/
theorem missCounter_concurrent_safe_witness :
    (Mutex.Cfg.mk false 1 (Multiset.replicate 1 Mutex.PC.finished)).ctr = 0 + 1
    ∧ ∀ (sr : Reg.SchemaRegistry) (db tbl : String),
        ((Reg.GetTableInfo sr db tbl).2).Databases = sr.Databases := by
  have s1 : Mutex.Step ⟨false, 0, Multiset.replicate 1 Mutex.PC.start⟩
      ⟨true, 0, Mutex.PC.locked ::ₘ 0⟩ := Mutex.Step.acquire 0 0
  have s2 : Mutex.Step ⟨true, 0, Mutex.PC.locked ::ₘ 0⟩
      ⟨true, 0, Mutex.PC.readv 0 ::ₘ 0⟩ := Mutex.Step.read true 0 0
  have s3 : Mutex.Step ⟨true, 0, Mutex.PC.readv 0 ::ₘ 0⟩
      ⟨true, 1, Mutex.PC.wrote ::ₘ 0⟩ := Mutex.Step.write true 0 0 0
  have s4 : Mutex.Step ⟨true, 1, Mutex.PC.wrote ::ₘ 0⟩
      ⟨false, 1, Mutex.PC.finished ::ₘ 0⟩ := Mutex.Step.release true 1 0
  exact missCounter_concurrent_safe 1 0 _
    (Relation.ReflTransGen.tail (Relation.ReflTransGen.tail
      (Relation.ReflTransGen.tail (Relation.ReflTransGen.tail
        Relation.ReflTransGen.refl s1) s2) s3) s4) rfl

/-- C10: when the lookup resolves to a `TableDef` whose column list is
empty, the projector returns an empty fields map (every row value
dropped); the positional `col_i` fallback is taken only in the no-entry
branch, which on a nonempty row never returns an empty map. -/
theorem rowProjection_empty_columns {α : Type} (defs : GoMap TableDef)
    (op : String) (ts lp : Nat) (db tbl gtid : String) (td : TableDef)
    (row : List α) (oldRow : Option (List α))
    (h : GetTableDef defs db tbl = some td) (hcols : td.Columns = []) :
    (createDMLEvent defs op ts lp db tbl gtid row oldRow).RowValues = []
    ∧ (row ≠ [] → buildPositionalValues row ≠ ([] : GoMap α)) := by
  constructor
  · unfold createDMLEvent
    rw [h]
    show buildNamedValues td.Columns row = []
    rw [buildNamedValues_eq_zip td.Columns (by rw [hcols]; simp) row, hcols]
    simp
  · intro hrow hcontra
    rw [buildPositionalValues_eq] at hcontra
    apply hrow
    cases row with
    | nil => rfl
    | cons a l =>
      rw [List.enum_cons] at hcontra
      cases hcontra

/-- C10 witness: an empty-column definition projects a 1-value row to the
empty map while the fallback would not. -/
theorem rowProjection_empty_columns_witness :
    GetTableDef emptyDefs "d" "t" = some emptyTd
    ∧ emptyTd.Columns = []
    ∧ (createDMLEvent emptyDefs "INSERT" 0 0 "d" "t" "" [(5 : Nat)] none).RowValues = []
    ∧ ([(5 : Nat)] ≠ ([] : List Nat) →
        buildPositionalValues [(5 : Nat)] ≠ ([] : GoMap Nat)) := by
  have h := rowProjection_empty_columns emptyDefs "INSERT" 0 0 "d" "t" ""
    emptyTd [(5 : Nat)] none (by decide) rfl
  exact ⟨by decide, rfl, h.1, h.2⟩

example : upperStr "use sbtest;" = "USE SBTEST;" := by decide

example : trimChars "  SBTEST;`" [' ', ';', backtickChar] = "SBTEST" := by
  decide

example : strHasPrefix "USE SBTEST;" "USE " = true := by decide

example : containsStr "INT NOT NULL" "NOT NULL" = true := by decide
